import Mathlib

/-!
Shallow embedding of the Telegram reminder bot (src/index.js): the tiny
JSON-file store, the three time-expression parsers (the JS regexes are
modelled faithfully, including the engine's backtracking priority, which
was derived by hand for each pattern and is documented at each matcher),
the remind/list/delete command handlers, and the 15-second scheduler tick.

Modelling conventions:
* millisecond timestamps are Int; the clock is frozen during one handler
  or one tick (the source re-reads Date.now(), but no claim depends on
  the clock advancing inside a single handler);
* JS Number applied to a digit string is modelled exactly (as Nat);
* the delivery transport (bot.api.sendMessage) is an oracle
  sendOk : Reminder -> Bool saying whether the send call succeeds;
* the host-local Date construction used by the at/tomorrow grammars is an
  environment parameter (DateEnv); the regex matching of those grammars is
  modelled concretely.
-/

namespace ReminderBot

/-- The character set matched by the JS regex class \s, which is also the
set removed by String.prototype.trim (WhiteSpace plus LineTerminator). -/
def isJsSpace (c : Char) : Bool :=
  let n := c.toNat
  n = 9 || n = 10 || n = 11 || n = 12 || n = 13 || n = 32 || n = 160 ||
  n = 5760 || (8192 ≤ n && n ≤ 8202) || n = 8232 || n = 8233 ||
  n = 8239 || n = 8287 || n = 12288 || n = 65279

/-- The character set matched by the JS regex class \d. -/
def isDigitCh (c : Char) : Bool :=
  48 ≤ c.toNat && c.toNat ≤ 57

/-- The character set matched by [smhd] under the i flag. -/
def isUnitChar (c : Char) : Bool :=
  let n := c.toNat
  n = 115 || n = 83 || n = 109 || n = 77 || n = 104 || n = 72 || n = 100 || n = 68

/-- JS line terminators: the characters NOT matched by the regex dot. -/
def isLineTerm (c : Char) : Bool :=
  let n := c.toNat
  n = 10 || n = 13 || n = 8232 || n = 8233

/-- Whether the JS regex dot matches a character (no s flag). -/
def dotMatches (c : Char) : Bool :=
  !isLineTerm c

/-- Numeric value of a digit string, as computed exactly by JS Number on
a string of decimal digits. -/
def digitsVal (l : List Char) : Nat :=
  l.foldl (fun a c => a * 10 + (c.toNat - 48)) 0

/-- JS String.prototype.trim on a character list. -/
def trimList (l : List Char) : List Char :=
  ((l.dropWhile isJsSpace).reverse.dropWhile isJsSpace).reverse

/-- JS String.prototype.trim. -/
def jsTrim (s : String) : String :=
  String.mk (trimList s.data)

/-- Case-insensitive keyword matching at the start of the input, as the JS
regex engine canonicalizes patterns under the i flag without the u flag
(ASCII keywords match exactly the ASCII case variants).  Returns the rest
of the input after the keyword. -/
def stripKeyword : List Char → List Char → Option (List Char)
  | [], l => some l
  | k :: ks, c :: l => if c.toLower = k then stripKeyword ks l else none
  | _ :: _, [] => none

/-- The capture of a trailing pattern of one-or-more whitespace followed by
the dot-plus-capture anchored at the end of input, under the JS engine's
backtracking priority: the greedy whitespace run tries its longest length
first, so the capture is the SHORTEST nonempty suffix usable, i.e. the
suffix dropping the largest i in [1, bound] such that what remains is
nonempty and free of line terminators.  bound is the length of the
leading whitespace run. -/
def bestTail (l : List Char) : Nat → Option (List Char)
  | 0 => none
  | n + 1 =>
    let t := l.drop (n + 1)
    if !t.isEmpty && t.all dotMatches then some t else bestTail l n

/-- Matcher for a whitespace-plus then dot-plus-capture tail anchored at
the end (the common tail of all three grammars). -/
def matchWsText (l : List Char) : Option (List Char) :=
  bestTail l (l.takeWhile isJsSpace).length

/-- Matcher for the tail of the relative grammar after the digits: a
whitespace-star, an optional unit letter capture, a whitespace-plus, and
the text capture.  Backtracking order of the JS engine, derived by hand:
the greedy whitespace-star first takes the whole leading whitespace run
(length k); at that position the optional unit group is tried present
first; if the character after the run is a unit letter and the rest
admits a whitespace-plus then text, that parse wins.  Otherwise every
remaining alternative has the unit group empty and the text capture is a
suffix of l dropping i characters for some i in [1, k], largest first. -/
def matchTail (s3 : List Char) : Option (Option Char × List Char) :=
  let k := (s3.takeWhile isJsSpace).length
  let fallback := (bestTail s3 k).map (fun txt => ((none : Option Char), txt))
  let afterWs := s3.drop k
  (afterWs.head?.bind (fun c =>
    if isUnitChar c then
      (bestTail afterWs.tail (afterWs.tail.takeWhile isJsSpace).length).map
        (fun txt => ((some c : Option Char), txt))
    else none)).or fallback

/-- Matcher for the relative-grammar regex of parseInSyntax:
caret, in, whitespace-plus, digit-plus capture, whitespace-star, optional
unit capture, whitespace-plus, text capture, dollar, with the i flag.
The whitespace-plus before the digits and the digit-plus are effectively
maximal because their character sets are disjoint from every pattern part
that follows them at a non-matching boundary. -/
def matchIn (cs : List Char) : Option (List Char × Option Char × List Char) :=
  (stripKeyword (['i', 'n']) cs).bind (fun rest =>
    let w := rest.takeWhile isJsSpace
    if w.isEmpty then none
    else
      let s2 := rest.drop w.length
      let ds := s2.takeWhile isDigitCh
      if ds.isEmpty then none
      else (matchTail (s2.drop ds.length)).map (fun p => (ds, p.1, p.2)))

/-- Result of one time-expression parser: due instant, display text, and
the human-readable descriptor. -/
structure Parsed where
  dueAt : Int
  text : String
  how : String
deriving DecidableEq, Repr

/-- The multipliers table lookup with the fallback to minutes
(multipliers[unit] or 60000). -/
def unitMs (u : Char) : Nat :=
  if u = 's' then 1000
  else if u = 'm' then 60000
  else if u = 'h' then 3600000
  else if u = 'd' then 86400000
  else 60000

/-- Model of parseInSyntax from src/index.js (the name is adjusted): match
the relative-grammar regex, default the missing unit to m, lowercase it,
trim the text capture, and compute dueAt as now plus amount times the
unit multiplier. -/
def parseIn (input : String) (now : Int) : Option Parsed :=
  (matchIn input.data).map (fun m =>
    let amount := digitsVal m.1
    let unit := (m.2.1.getD 'm').toLower
    { dueAt := now + (amount * unitMs unit : Nat)
      text := String.mk (trimList m.2.2)
      how := "in " ++ toString amount ++ unit.toString })

/-- Exactly n digit characters from the front of the input. -/
def takeDigits : Nat → List Char → Option (List Char × List Char)
  | 0, l => some ([], l)
  | _ + 1, [] => none
  | n + 1, c :: l =>
    if isDigitCh c then (takeDigits n l).map (fun p => (c :: p.1, p.2)) else none

/-- Matcher for one-or-two digits followed by a colon (the hour group).
The greedy bounded repetition tries two digits first, then one. -/
def matchHourColon (l : List Char) : Option (List Char × List Char) :=
  match takeDigits 2 l with
  | some (hh, ':' :: rest) => some (hh, rest)
  | _ =>
    match takeDigits 1 l with
    | some (hh, ':' :: rest) => some (hh, rest)
    | _ => none

/-- Matcher for the date group of the absolute grammar: four digits, a
dash, two digits, a dash, two digits (fixed counts, no backtracking). -/
def matchDate (l : List Char) : Option (List Char × List Char × List Char × List Char) :=
  match takeDigits 4 l with
  | some (y, '-' :: r1) =>
    match takeDigits 2 r1 with
    | some (mo, '-' :: r2) =>
      match takeDigits 2 r2 with
      | some (d, rest) => some (y, mo, d, rest)
      | none => none
    | _ => none
  | _ => none

/-- Matcher for the absolute-grammar regex of parseAtSyntax: caret, at,
whitespace-plus, date capture, whitespace-plus, hour capture, colon,
two-digit minute capture, whitespace-plus, text capture, dollar, i flag.
Returns year, month, day, hour, minute digit captures and the raw text. -/
def matchAt (cs : List Char) :
    Option (List Char × List Char × List Char × List Char × List Char × List Char) :=
  match stripKeyword (['a', 't']) cs with
  | none => none
  | some rest =>
    let w := rest.takeWhile isJsSpace
    if w.isEmpty then none
    else
      match matchDate (rest.drop w.length) with
      | some (y, mo, d, r1) =>
        let w2 := r1.takeWhile isJsSpace
        if w2.isEmpty then none
        else
          match matchHourColon (r1.drop w2.length) with
          | some (hh, r2) =>
            match takeDigits 2 r2 with
            | some (mm, r3) => (matchWsText r3).map (fun txt => (y, mo, d, hh, mm, txt))
            | none => none
          | none => none
      | none => none

/-- Matcher for the next-day-grammar regex of parseTomorrowSyntax: caret,
tomorrow, whitespace-plus, hour capture, colon, two-digit minute capture,
whitespace-plus, text capture, dollar, i flag. -/
def matchTomorrow (cs : List Char) : Option (List Char × List Char × List Char) :=
  match stripKeyword (['t', 'o', 'm', 'o', 'r', 'r', 'o', 'w']) cs with
  | none => none
  | some rest =>
    let w := rest.takeWhile isJsSpace
    if w.isEmpty then none
    else
      match matchHourColon (rest.drop w.length) with
      | some (hh, r2) =>
        match takeDigits 2 r2 with
        | some (mm, r3) => (matchWsText r3).map (fun txt => (hh, mm, txt))
        | none => none
      | none => none

/-- Environment for the host-local Date semantics used by the absolute and
next-day grammars: mkLocal y monthIndex day hour minute is the epoch
instant of new Date(y, monthIndex, day, hour, minute, 0, 0).getTime();
year, month, day are the local calendar fields of the current instant. -/
structure DateEnv where
  mkLocal : Int → Int → Int → Int → Int → Int
  year : Int
  month : Int
  day : Int

/-- Model of parseAtSyntax from src/index.js (the name is adjusted). -/
def parseAt (env : DateEnv) (input : String) : Option Parsed :=
  (matchAt input.data).map (fun m =>
    match m with
    | (y, mo, d, hh, mm, txt) =>
      { dueAt := env.mkLocal (digitsVal y) ((digitsVal mo : Int) - 1) (digitsVal d)
          (digitsVal hh) (digitsVal mm)
        text := String.mk (trimList txt)
        how := "at " ++ String.mk y ++ "-" ++ String.mk mo ++ "-" ++ String.mk d ++
          " " ++ String.mk hh ++ ":" ++ String.mk mm })

/-- Model of parseTomorrowSyntax from src/index.js (the name is adjusted):
due at local today-plus-one at the given hour and minute. -/
def parseTomorrow (env : DateEnv) (input : String) : Option Parsed :=
  (matchTomorrow input.data).map (fun m =>
    match m with
    | (hh, mm, txt) =>
      { dueAt := env.mkLocal env.year env.month (env.day + 1) (digitsVal hh) (digitsVal mm)
        text := String.mk (trimList txt)
        how := "tomorrow " ++ String.mk hh ++ ":" ++ String.mk mm })

/-- Model of parseWhenAndText: the three grammars in fixed priority order
with JS or-else short-circuiting. -/
def parseWhenAndText (env : DateEnv) (input : String) (now : Int) : Option Parsed :=
  match parseIn input now with
  | some p => some p
  | none =>
    match parseAt env input with
    | some p => some p
    | none => parseTomorrow env input

/-- Reminder status enum. -/
inductive Status where
  | pending
  | sent
  | deleted
deriving DecidableEq, Repr

/-- A persisted reminder record (the fields pushed by the remind handler;
sentAt and deletedAt are absent until set). -/
structure Reminder where
  id : Nat
  chatId : Int
  userId : Option Int
  text : String
  dueAt : Int
  createdAt : Int
  status : Status
  how : String
  sentAt : Option Int := none
  deletedAt : Option Int := none
deriving DecidableEq, Repr

/-- The JSON-file store: lastId plus the ordered reminder list. -/
structure Store where
  lastId : Nat
  reminders : List Reminder
deriving DecidableEq, Repr

/-- Outcome of the remind command handler. -/
inductive CreateResult where
  | noArg
  | parseError
  | emptyText
  | pastDue
  | created (r : Reminder)
deriving DecidableEq, Repr

/-- Model of the remind command handler (src/index.js lines 147 to 191):
trim the argument, parse it, reject empty text then past-or-present due
times, otherwise allocate lastId plus one, append the pending record and
persist.  The returned store is the persisted state (unchanged on every
rejection path, where nothing is written). -/
def remindCmd (env : DateEnv) (db : Store) (chatId : Int) (userId : Option Int)
    (rawArg : String) (now : Int) : Store × CreateResult :=
  let arg := jsTrim rawArg
  if arg = "" then (db, .noArg)
  else
    match parseWhenAndText env arg now with
    | none => (db, .parseError)
    | some p =>
      if p.text = "" then (db, .emptyText)
      else if p.dueAt ≤ now then (db, .pastDue)
      else
        let newId := db.lastId + 1
        let r : Reminder :=
          { id := newId, chatId := chatId, userId := userId, text := p.text
            dueAt := p.dueAt, createdAt := now, status := .pending, how := p.how }
        ({ lastId := newId, reminders := db.reminders ++ [r] }, .created r)

/-- Model of the list command handler (src/index.js lines 193 to 206):
filter this chat's pending reminders and sort ascending by dueAt (JS
Array.prototype.sort with the comparator a.dueAt - b.dueAt, a stable
correct sort, modelled by mergeSort). -/
def listCmd (db : Store) (chatId : Int) : List Reminder :=
  (db.reminders.filter (fun r => r.chatId == chatId && r.status == Status.pending)).mergeSort
    (fun a b => a.dueAt ≤ b.dueAt)

/-- Outcome of the delete command handler. -/
inductive DeleteResult where
  | usage
  | notFound
  | ok
deriving DecidableEq, Repr

/-- In-place mutation of the first list element satisfying p (the Array
find call returns a live reference that the handler mutates). -/
def updateFirst (p : Reminder → Bool) (f : Reminder → Reminder) :
    List Reminder → Option (List Reminder)
  | [] => none
  | r :: rs =>
    if p r then some (f r :: rs)
    else (updateFirst p f rs).map (fun l => r :: l)

/-- The mutation the delete handler applies to the found record: status
becomes deleted and deletedAt is set to the current instant.  The handler
performs no status check on the found record. -/
def setDeleted (now : Int) (r : Reminder) : Reminder :=
  { r with status := .deleted, deletedAt := some now }

/-- Model of the delete command handler (src/index.js lines 208 to 220):
Number of the argument falsy (zero or not a number, modelled as id = 0)
gives a usage reply; otherwise find by id AND chatId only, mark deleted
and persist, or reply not-found leaving the store unwritten. -/
def deleteCmd (db : Store) (chatId : Int) (id : Nat) (now : Int) : Store × DeleteResult :=
  if id = 0 then (db, .usage)
  else
    match updateFirst (fun x => x.id == id && x.chatId == chatId) (setDeleted now) db.reminders with
    | none => (db, .notFound)
    | some rs => ({ db with reminders := rs }, .ok)

/-- The due predicate of the scheduler: status pending and dueAt at or
before the tick instant. -/
def isDue (now : Int) (r : Reminder) : Bool :=
  r.status == Status.pending && r.dueAt ≤ now

/-- The per-reminder effect of one tick: a due reminder whose transport
call succeeds becomes sent with sentAt set; a due reminder whose
transport call fails is left untouched (retried next tick); a reminder
that is not due is untouched. -/
def tickReminder (now : Int) (sendOk : Reminder → Bool) (r : Reminder) : Reminder :=
  if isDue now r then
    if sendOk r then { r with status := .sent, sentAt := some now }
    else r
  else r

/-- Model of the scheduler tick (src/index.js lines 223 to 246): select
the due list, attempt delivery for each selected reminder mutating the
loaded store in place, and call writeDB exactly when the due list was
nonempty.  Returns the resulting persisted store and whether writeDB ran. -/
def tick (db : Store) (now : Int) (sendOk : Reminder → Bool) : Store × Bool :=
  let due := db.reminders.filter (isDue now)
  ({ db with reminders := db.reminders.map (tickReminder now sendOk) }, due.length != 0)

/-- A JSON value, the result type of JSON.parse. -/
inductive Json where
  | null
  | bool (b : Bool)
  | num (n : Int)
  | str (s : String)
  | arr (elems : List Json)
  | obj (fields : List (String × Json))

/-- Whether a JSON value is an object. -/
def Json.isObj : Json → Bool
  | .obj _ => true
  | _ => false

/-- The outcome of the readFileSync plus JSON.parse pipeline on the
backing file, abstracting the text layer: the read can throw because the
file is missing or unreadable, the parse can throw because the content is
not well-formed JSON, or a JSON value is produced. -/
inductive Medium where
  | missing
  | unreadable
  | invalidJson
  | json (v : Json)

/-- The empty default store, as a JSON value. -/
def defaultStoreJson : Json :=
  Json.obj [("lastId", Json.num 0), ("reminders", Json.arr [])]

/-- Model of readDB (src/index.js lines 38 to 45): any throw from the read
or the parse is caught and replaced by the empty default; a successful
parse is returned as-is with no semantic validation.  Total, so it never
raises to its caller. -/
def readDB : Medium → Json
  | .missing => defaultStoreJson
  | .unreadable => defaultStoreJson
  | .invalidJson => defaultStoreJson
  | .json v => v

/-- One store-mutating operation of the system, for whole-history
invariants. -/
inductive Op where
  | remind (chatId : Int) (userId : Option Int) (rawArg : String) (now : Int)
  | del (chatId : Int) (id : Nat) (now : Int)
  | tickOp (now : Int) (sendOk : Reminder → Bool)

/-- The persisted store after applying one operation. -/
def applyOp (env : DateEnv) (db : Store) : Op → Store
  | .remind chatId userId rawArg now => (remindCmd env db chatId userId rawArg now).1
  | .del chatId id now => (deleteCmd db chatId id now).1
  | .tickOp now sendOk => (tick db now sendOk).1

/-- Whether a create outcome is the empty-text rejection. -/
def isEmptyTextResult : CreateResult → Bool
  | .emptyText => true
  | _ => false

/-- Concrete fixture: a reminder already delivered (status sent). -/
def sentRem : Reminder :=
  { id := 1, chatId := 7, userId := none, text := "x", dueAt := 5, createdAt := 0,
    status := .sent, how := "in 5m", sentAt := some 5 }

/-- Concrete fixture: a store holding only the sent reminder. -/
def sentStore : Store :=
  { lastId := 1, reminders := [sentRem] }

/-- Concrete fixture: a reminder still pending and already due at instant 10. -/
def pendRem : Reminder :=
  { id := 1, chatId := 7, userId := none, text := "x", dueAt := 5, createdAt := 0,
    status := .pending, how := "in 5m" }

/-- Concrete fixture: a store holding only the pending due reminder. -/
def pendStore : Store :=
  { lastId := 1, reminders := [pendRem] }

/-- Concrete fixture: an empty store. -/
def emptyStore : Store :=
  { lastId := 0, reminders := [] }

/-- Concrete fixture: a trivial date environment. -/
def trivEnv : DateEnv :=
  { mkLocal := fun _ _ _ _ _ => 0, year := 0, month := 0, day := 0 }

/-- Spec-level store invariant: ids are exactly 1..N in creation order and
lastId is the maximum assigned id (0 when none). -/
def StoreInv (db : Store) : Prop :=
  db.reminders.map Reminder.id = List.range' 1 db.reminders.length
  ∧ db.lastId = db.reminders.length

/-! ## Theorems -/

/-- Mapping a function that fixes every member of a list is the identity. -/
theorem map_id_of_mem {α : Type} {f : α → α} :
    ∀ {l : List α}, (∀ a ∈ l, f a = a) → l.map f = l
  | [], _ => rfl
  | a :: l, h => by
    simp only [List.map_cons, h a (List.mem_cons_self a l)]
    rw [map_id_of_mem (fun b hb => h b (List.mem_cons_of_mem a hb))]

/-- A reminder that is not due is untouched by a tick. -/
theorem tickReminder_not_due {now : Int} {sendOk : Reminder → Bool} {r : Reminder}
    (h : isDue now r = false) : tickReminder now sendOk r = r := by
  unfold tickReminder
  simp [h]

/-- A reminder with a terminal status is untouched by a tick. -/
theorem tickReminder_terminal {now : Int} {sendOk : Reminder → Bool} {r : Reminder}
    (h : r.status ≠ Status.pending) : tickReminder now sendOk r = r := by
  apply tickReminder_not_due
  unfold isDue
  simp [beq_eq_false_iff_ne.mpr h]

/-- The reminder list after a tick, definitionally. -/
theorem tick_store_eq (db : Store) (now : Int) (sendOk : Reminder → Bool) :
    (tick db now sendOk).1.reminders = db.reminders.map (tickReminder now sendOk) := rfl

/-- The write flag of a tick, definitionally. -/
theorem tick_flag_eq (db : Store) (now : Int) (sendOk : Reminder → Bool) :
    (tick db now sendOk).2 = ((db.reminders.filter (isDue now)).length != 0) := rfl

/-- A tick that selects no due reminder leaves the store unchanged and
performs no write. -/
theorem tick_of_no_due {db : Store} {now : Int} {sendOk : Reminder → Bool}
    (h : db.reminders.filter (isDue now) = []) :
    (tick db now sendOk).1 = db ∧ (tick db now sendOk).2 = false := by
  constructor
  · show ({ db with reminders := db.reminders.map (tickReminder now sendOk) } : Store) = db
    have hmap : db.reminders.map (tickReminder now sendOk) = db.reminders := by
      apply map_id_of_mem
      intro a ha
      apply tickReminder_not_due
      have := List.filter_eq_nil_iff.mp h a ha
      simpa using this
    rw [hmap]
  · rw [tick_flag_eq, h]
    rfl

/-- C1, counterexample: the delete handler matches on id and chatId only,
never checking status, so a delete call on an already sent reminder
succeeds and changes its status to deleted (and sets deletedAt), refuting
the claim that no delete call changes a terminal status. -/
theorem claim_C1_counterexample :
    sentStore.reminders.map Reminder.status = [Status.sent]
    ∧ (deleteCmd sentStore 7 1 99).2 = DeleteResult.ok
    ∧ (deleteCmd sentStore 7 1 99).1.reminders.map Reminder.status = [Status.deleted]
    ∧ (deleteCmd sentStore 7 1 99).1.reminders.map Reminder.deletedAt = [some 99] :=
  ⟨rfl, rfl, rfl, rfl⟩

/-- C1, amended: scheduler ticks never change a reminder whose status is
sent or deleted (the due filter requires pending, so a terminal record is
returned identically, fields included); but the delete handler does not
check status, so a delete call matching id and chatId re-marks even a
sent reminder as deleted, as the third conjunct shows on the sent
fixture. -/
theorem claim_C1 :
    (∀ (now : Int) (sendOk : Reminder → Bool) (r : Reminder),
      r.status ≠ Status.pending → tickReminder now sendOk r = r)
    ∧ (∀ (db : Store) (now : Int) (sendOk : Reminder → Bool) (i : Nat) (r : Reminder),
      db.reminders[i]? = some r → r.status ≠ Status.pending →
      (tick db now sendOk).1.reminders[i]? = some r)
    ∧ (deleteCmd sentStore 7 1 99).1.reminders.map Reminder.status = [Status.deleted] := by
  refine ⟨fun _ _ _ h => tickReminder_terminal h, ?_, rfl⟩
  intro db now sendOk i r hr hs
  rw [tick_store_eq, List.getElem?_map, hr]
  simp [tickReminder_terminal hs]

/-- C1, witness: the tick-preservation part of the amended claim applied
to the concrete sent reminder. -/
theorem claim_C1_witness :
    tickReminder 0 (fun _ => true) sentRem = sentRem :=
  claim_C1.1 0 (fun _ => true) sentRem (by decide)

/-- C2, counterexample: a tick over a store whose only reminder is due but
whose transport call fails changes no status (the resulting store equals
the original) yet still calls writeDB, because the write condition is
that the due selection was nonempty, refuting the claim that a tick with
no status change performs no write. -/
theorem claim_C2_counterexample :
    (tick pendStore 10 (fun _ => false)).1 = pendStore
    ∧ (tick pendStore 10 (fun _ => false)).2 = true :=
  ⟨rfl, rfl⟩

/-- C2, amended: a tick persists at most once, and it writes exactly when
the due selection (pending and due at or before now) is nonempty — even
if every transport call failed and no status changed; a tick with an
empty due selection leaves the store unchanged and performs no write; any
status change implies the due selection was nonempty and hence the single
write happened; and immediately re-running a tick after a fully
successful one (same instant, no new due reminders) changes nothing and
performs no write. -/
theorem claim_C2 (db : Store) (now : Int) (sendOk : Reminder → Bool) :
    ((tick db now sendOk).2 = true ↔ db.reminders.filter (isDue now) ≠ [])
    ∧ (db.reminders.filter (isDue now) = [] →
        (tick db now sendOk).1 = db ∧ (tick db now sendOk).2 = false)
    ∧ (∀ (i : Nat) (r : Reminder), db.reminders[i]? = some r →
        tickReminder now sendOk r ≠ r → (tick db now sendOk).2 = true)
    ∧ (∀ sendOk2 : Reminder → Bool,
        (tick (tick db now (fun _ => true)).1 now sendOk2).1 = (tick db now (fun _ => true)).1
        ∧ (tick (tick db now (fun _ => true)).1 now sendOk2).2 = false) := by
  refine ⟨?_, fun h => tick_of_no_due h, ?_, ?_⟩
  · rw [tick_flag_eq]
    simp [List.length_eq_zero]
  · intro i r hr hne
    have hd : isDue now r = true := by
      by_cases hcase : isDue now r = true
      · exact hcase
      · exact absurd (tickReminder_not_due (by simpa using hcase)) hne
    have hmem : r ∈ db.reminders := by
      have hlt := List.getElem?_eq_some.mp hr
      obtain ⟨hi, hg⟩ := hlt
      exact hg ▸ List.getElem_mem hi
    have hfil : db.reminders.filter (isDue now) ≠ [] :=
      List.ne_nil_of_mem (List.mem_filter.mpr ⟨hmem, hd⟩)
    rw [tick_flag_eq]
    simp [List.length_eq_zero, hfil]
  · intro sendOk2
    apply tick_of_no_due
    apply List.filter_eq_nil_iff.mpr
    intro a ha
    rw [tick_store_eq] at ha
    obtain ⟨r, hrm, rfl⟩ := List.mem_map.mp ha
    by_cases hd : isDue now r = true
    · unfold tickReminder
      simp only [hd, if_true]
      unfold isDue
      simp
    · rw [tickReminder_not_due (by simpa using hd)]
      simp [hd]

/-- C2, witness: a tick in which a status did change (the pending due
fixture with a succeeding transport) performed the write. -/
theorem claim_C2_witness :
    (tick pendStore 10 (fun _ => true)).2 = true :=
  (claim_C2 pendStore 10 (fun _ => true)).2.2.1 0 pendRem rfl (by decide)

/-- C5: a tick attempts exactly the reminders that are pending and due at
or before now (the due filter), and pointwise: a due reminder whose
transport succeeds becomes sent with sentAt set to the tick instant; a
due reminder whose transport fails is returned with every field
unchanged; a non-due reminder is unchanged; and a due reminder whose
transport failed is still due at every later tick instant, so it is
re-attempted. -/
theorem claim_C5 (db : Store) (now now2 : Int) (sendOk : Reminder → Bool)
    (i : Nat) (r : Reminder) (hr : db.reminders[i]? = some r) :
    db.reminders.filter (isDue now)
      = db.reminders.filter (fun x => x.status == Status.pending && decide (x.dueAt ≤ now))
    ∧ (tick db now sendOk).1.reminders[i]? = some (tickReminder now sendOk r)
    ∧ (isDue now r = true → sendOk r = true →
        tickReminder now sendOk r = { r with status := Status.sent, sentAt := some now })
    ∧ (isDue now r = true → sendOk r = false → tickReminder now sendOk r = r)
    ∧ (isDue now r = false → tickReminder now sendOk r = r)
    ∧ (isDue now r = true → sendOk r = false → now ≤ now2 →
        isDue now2 (tickReminder now sendOk r) = true) := by
  refine ⟨rfl, ?_, ?_, ?_, fun hd => tickReminder_not_due hd, ?_⟩
  · rw [tick_store_eq, List.getElem?_map, hr]
    rfl
  · intro hd hs
    unfold tickReminder
    simp [hd, hs]
  · intro hd hs
    unfold tickReminder
    simp [hd, hs]
  · intro hd hs hle
    unfold tickReminder
    simp only [hd, if_true, hs, if_false]
    unfold isDue at hd ⊢
    simp only [Bool.and_eq_true, beq_iff_eq, decide_eq_true_eq] at hd
    simp only [Bool.and_eq_true, beq_iff_eq, decide_eq_true_eq]
    exact ⟨hd.1, le_trans hd.2 hle⟩

/-- C5, witness: the pointwise tick result at the concrete pending due
fixture. -/
theorem claim_C5_witness :
    (tick pendStore 10 (fun _ => true)).1.reminders[0]?
      = some (tickReminder 10 (fun _ => true) pendRem) :=
  (claim_C5 pendStore 10 10 (fun _ => true) 0 pendRem rfl).2.1

/-- C9: listing returns exactly the reminders of the requesting chat whose
status is pending (a permutation of that filter, so the same records with
multiplicity), in ascending dueAt order. -/
theorem claim_C9 (db : Store) (chatId : Int) :
    List.Perm (listCmd db chatId)
      (db.reminders.filter (fun r => decide (r.chatId = chatId ∧ r.status = Status.pending)))
    ∧ List.Pairwise (fun a b : Reminder => a.dueAt ≤ b.dueAt) (listCmd db chatId) := by
  have hfil : db.reminders.filter (fun r => r.chatId == chatId && r.status == Status.pending)
      = db.reminders.filter (fun r => decide (r.chatId = chatId ∧ r.status = Status.pending)) := by
    apply List.filter_congr
    intro a _
    rw [Bool.eq_iff_iff]
    simp
  constructor
  · unfold listCmd
    rw [hfil]
    exact List.mergeSort_perm _ _
  · unfold listCmd
    refine List.Pairwise.imp ?_ (List.sorted_mergeSort ?_ ?_ _)
    · intro a b h
      exact of_decide_eq_true h
    · intro a b c hab hbc
      simp only [decide_eq_true_eq] at hab hbc ⊢
      omega
    · intro a b
      simp only [Bool.or_eq_true, decide_eq_true_eq]
      omega

/-- A tick never changes a reminder's id. -/
theorem tickReminder_id (now : Int) (sendOk : Reminder → Bool) (r : Reminder) :
    (tickReminder now sendOk r).id = r.id := by
  unfold tickReminder
  by_cases h : isDue now r = true
  · rw [if_pos h]
    by_cases hs : sendOk r = true
    · rw [if_pos hs]
    · rw [if_neg hs]
  · rw [if_neg h]

/-- Mapping g over a list is unchanged by premapping f when g absorbs f. -/
theorem map_comp_eq_map {α : Type} {f : Reminder → Reminder} {g : Reminder → α}
    (h : ∀ a, g (f a) = g a) : ∀ l : List Reminder, (l.map f).map g = l.map g := by
  intro l
  induction l with
  | nil => rfl
  | cons a l ih => simp [h, ih]

/-- Updating the first matching record preserves any projection the update
function absorbs (in particular ids), pointwise over the whole list. -/
theorem updateFirst_map {α : Type} (g : Reminder → α) (p : Reminder → Bool)
    (f : Reminder → Reminder) (hg : ∀ r, g (f r) = g r) :
    ∀ (l l' : List Reminder), updateFirst p f l = some l' → l'.map g = l.map g := by
  intro l
  induction l with
  | nil =>
    intro l' h
    exact absurd h (by simp [updateFirst])
  | cons r rs ih =>
    intro l' h
    unfold updateFirst at h
    by_cases hp : p r
    · rw [if_pos hp] at h
      injection h with h
      subst h
      simp [hg]
    · rw [if_neg hp] at h
      cases hm : updateFirst p f rs with
      | none => rw [hm] at h; simp at h
      | some rs2 =>
        rw [hm] at h
        simp only [Option.map] at h
        injection h with h
        subst h
        simp [ih rs2 hm]

/-- The remind handler either leaves the store untouched (every rejection
path) or appends one record carrying id lastId plus one and bumps lastId
to it. -/
theorem remindCmd_store_cases (env : DateEnv) (db : Store) (chatId : Int)
    (userId : Option Int) (rawArg : String) (now : Int) :
    (remindCmd env db chatId userId rawArg now).1 = db
    ∨ ∃ r : Reminder, r.id = db.lastId + 1
        ∧ (remindCmd env db chatId userId rawArg now).1
          = { lastId := db.lastId + 1, reminders := db.reminders ++ [r] } := by
  simp only [remindCmd]
  split
  · exact Or.inl rfl
  · split
    · exact Or.inl rfl
    · split
      · exact Or.inl rfl
      · split
        · exact Or.inl rfl
        · exact Or.inr ⟨_, rfl, rfl⟩

/-- Every operation preserves the id/lastId store invariant. -/
theorem inv_applyOp (env : DateEnv) (db : Store) (op : Op) (h : StoreInv db) :
    StoreInv (applyOp env db op) := by
  obtain ⟨hids, hlast⟩ := h
  cases op with
  | remind chatId userId rawArg now =>
    show StoreInv (remindCmd env db chatId userId rawArg now).1
    rcases remindCmd_store_cases env db chatId userId rawArg now with heq | ⟨r, hid, heq⟩
    · rw [heq]; exact ⟨hids, hlast⟩
    · rw [heq]
      constructor
      · simp only [List.map_append, List.length_append, List.map_cons, List.map_nil,
          List.length_cons, List.length_nil]
        rw [hids, hid, hlast]
        rw [List.range'_1_concat]
        simp [Nat.add_comm]
      · simp [hlast]
  | del chatId id now =>
    show StoreInv (deleteCmd db chatId id now).1
    unfold deleteCmd
    by_cases h0 : id = 0
    · rw [if_pos h0]; exact ⟨hids, hlast⟩
    · rw [if_neg h0]
      cases hm : updateFirst (fun x => x.id == id && x.chatId == chatId) (setDeleted now)
          db.reminders with
      | none => exact ⟨hids, hlast⟩
      | some rs =>
        have hmap : rs.map Reminder.id = db.reminders.map Reminder.id :=
          updateFirst_map Reminder.id (fun x => x.id == id && x.chatId == chatId)
            (setDeleted now) (fun _ => rfl) db.reminders rs hm
        have hlen : rs.length = db.reminders.length := by
          have := congrArg List.length hmap
          simpa using this
        exact ⟨by simp only; rw [hmap, hlen, hids], by simp only; rw [hlast, hlen]⟩
  | tickOp now sendOk =>
    show StoreInv (tick db now sendOk).1
    constructor
    · show (db.reminders.map (tickReminder now sendOk)).map Reminder.id
        = List.range' 1 (db.reminders.map (tickReminder now sendOk)).length
      rw [map_comp_eq_map (fun a => tickReminder_id now sendOk a)]
      rw [List.length_map]
      exact hids
    · show db.lastId = (db.reminders.map (tickReminder now sendOk)).length
      rw [List.length_map]
      exact hlast

/-- C6: over any operation history from the empty store (creates through
any grammar or environment, deletes and ticks interleaved), the stored
ids are exactly 1..N in order with no gaps or repeats, where N counts the
successfully created reminders, and after every operation lastId equals
the maximum assigned id (0 when none): each successful create therefore
receives id N plus one. -/
theorem claim_C6 (env : DateEnv) (ops : List Op) :
    (ops.foldl (applyOp env) emptyStore).reminders.map Reminder.id
      = List.range' 1 (ops.foldl (applyOp env) emptyStore).reminders.length
    ∧ (ops.foldl (applyOp env) emptyStore).lastId
      = (ops.foldl (applyOp env) emptyStore).reminders.length := by
  suffices h : ∀ db : Store, StoreInv db → StoreInv (ops.foldl (applyOp env) db) from
    h emptyStore ⟨rfl, rfl⟩
  induction ops with
  | nil => exact fun db hdb => hdb
  | cons op ops ih =>
    intro db hdb
    exact ih _ (inv_applyOp env db op hdb)

/-- A digit character is not regex whitespace. -/
theorem digit_not_space {c : Char} (h : isDigitCh c = true) : isJsSpace c = false := by
  have hn : 48 ≤ c.toNat ∧ c.toNat ≤ 57 := by
    simpa [isDigitCh] using h
  cases hb : isJsSpace c with
  | false => rfl
  | true =>
    exfalso
    simp only [isJsSpace, Bool.or_eq_true, Bool.and_eq_true, decide_eq_true_eq] at hb
    omega

/-- A character that is not regex whitespace is matched by the regex dot
(line terminators are whitespace). -/
theorem dot_of_not_space {c : Char} (h : isJsSpace c = false) : dotMatches c = true := by
  cases hb : dotMatches c with
  | true => rfl
  | false =>
    exfalso
    unfold dotMatches at hb
    have hl : isLineTerm c = true := by simpa using hb
    simp only [isLineTerm, Bool.or_eq_true, decide_eq_true_eq] at hl
    have hs : isJsSpace c = true := by
      simp only [isJsSpace, Bool.or_eq_true, Bool.and_eq_true, decide_eq_true_eq]
      omega
    rw [hs] at h
    exact Bool.noConfusion h

/-- takeWhile consumes exactly a leading block of satisfying characters
when the next character fails the predicate. -/
theorem takeWhile_all_append {p : Char → Bool} {l1 : List Char} {a : Char} {l2 : List Char}
    (h1 : ∀ c ∈ l1, p c = true) (h2 : p a = false) :
    (l1 ++ a :: l2).takeWhile p = l1 := by
  induction l1 with
  | nil => simp [List.takeWhile_cons, h2]
  | cons x xs ih =>
    simp only [List.cons_append, List.takeWhile_cons, h1 x (List.mem_cons_self x xs), if_true]
    rw [ih (fun c hc => h1 c (List.mem_cons_of_mem x hc))]

/-- The backtracking tail capture takes the whole suffix after a nonempty
whitespace run when that suffix is nonempty and dot-matchable. -/
theorem bestTail_eq {l1 l2 : List Char} (h1 : l1 ≠ []) (h2 : l2 ≠ [])
    (hall : l2.all dotMatches = true) : bestTail (l1 ++ l2) l1.length = some l2 := by
  obtain ⟨x, l1x, rfl⟩ := List.exists_cons_of_ne_nil h1
  have hd : ((x :: l1x) ++ l2).drop (l1x.length + 1) = l2 := by
    rw [List.cons_append, List.drop_succ_cons]
    exact List.drop_left l1x l2
  show bestTail ((x :: l1x) ++ l2) (l1x.length + 1) = some l2
  unfold bestTail
  simp only [hd, hall, Bool.and_true]
  have he : l2.isEmpty = false := by
    cases l2 with
    | nil => exact absurd rfl h2
    | cons a b => rfl
  rw [he]
  rfl

/-- The relative-grammar tail matcher on a nonempty whitespace run followed
by a non-unit non-space character: the optional unit group stays empty
and the capture is the whole remainder after the run. -/
theorem matchTail_no_unit {ws : List Char} {c : Char} {rest : List Char}
    (hwsne : ws ≠ []) (hws : ∀ x ∈ ws, isJsSpace x = true)
    (hc1 : isJsSpace c = false) (hc2 : isUnitChar c = false)
    (hdot : (c :: rest).all dotMatches = true) :
    matchTail (ws ++ c :: rest) = some (none, c :: rest) := by
  have htw : (ws ++ c :: rest).takeWhile isJsSpace = ws := takeWhile_all_append hws hc1
  have hlen : ((ws ++ c :: rest).takeWhile isJsSpace).length = ws.length := by rw [htw]
  have hdrop : (ws ++ c :: rest).drop ws.length = c :: rest := List.drop_left ws (c :: rest)
  unfold matchTail
  simp only [hlen, hdrop, List.head?_cons, Option.some_bind, hc2, Bool.false_eq_true, if_false,
    Option.none_or]
  rw [bestTail_eq hwsne (List.cons_ne_nil c rest) hdot]
  rfl

/-- The relative-grammar matcher on an input of the shape in, space,
digits, space, non-unit letter, space, text: it matches with the unit
group empty and the capture starting at the letter. -/
theorem matchIn_shape {ds : List Char} {letter : Char} {text : List Char}
    (hds : ds ≠ []) (hdig : ∀ c ∈ ds, isDigitCh c = true)
    (hunit : isUnitChar letter = false) (hsp : isJsSpace letter = false)
    (hdot : ∀ c ∈ text, dotMatches c = true) :
    matchIn ('i' :: 'n' :: ' ' :: (ds ++ ' ' :: letter :: ' ' :: text))
      = some (ds, none, letter :: ' ' :: text) := by
  obtain ⟨d, ds2, rfl⟩ := List.exists_cons_of_ne_nil hds
  unfold matchIn
  rw [show stripKeyword (['i', 'n'])
      ('i' :: 'n' :: ' ' :: ((d :: ds2) ++ ' ' :: letter :: ' ' :: text))
      = some (' ' :: ((d :: ds2) ++ ' ' :: letter :: ' ' :: text)) from rfl]
  rw [Option.some_bind]
  have hw : (' ' :: ((d :: ds2) ++ ' ' :: letter :: ' ' :: text)).takeWhile isJsSpace
      = [' '] := by
    simp [List.takeWhile_cons, show isJsSpace ' ' = true from rfl,
      digit_not_space (hdig d (List.mem_cons_self d ds2))]
  simp only [hw]
  rw [show ([' '] : List Char).isEmpty = false from rfl]
  simp only [Bool.false_eq_true, if_false, List.length_cons, List.length_nil]
  rw [show (' ' :: ((d :: ds2) ++ ' ' :: letter :: ' ' :: text)).drop (0 + 1)
      = (d :: ds2) ++ ' ' :: letter :: ' ' :: text from rfl]
  have hds' : ((d :: ds2) ++ ' ' :: letter :: ' ' :: text).takeWhile isDigitCh = d :: ds2 :=
    takeWhile_all_append hdig (by rfl)
  simp only [hds']
  rw [show (d :: ds2).isEmpty = false from rfl]
  simp only [Bool.false_eq_true, if_false]
  rw [List.drop_left (d :: ds2) (' ' :: letter :: ' ' :: text)]
  rw [show (' ' :: letter :: ' ' :: text) = ([' '] ++ letter :: ' ' :: text) from rfl]
  rw [matchTail_no_unit (by decide) (by decide) hsp hunit ?hall]
  · rfl
  · simp only [List.all_cons, dot_of_not_space hsp, Bool.true_and,
      show dotMatches ' ' = true from rfl]
    exact List.all_eq_true.mpr hdot

/-- C3: any input of the shape in, amount, a letter that is not a unit
letter, then text still matches the relative grammar — the optional unit
group simply stays empty, the letter folds into the captured text — and
the unit defaults to minutes, so dueAt is now plus amount times 60000 ms:
the parse does not fail. -/
theorem claim_C3 (now : Int) (ds : List Char) (letter : Char) (text : List Char)
    (hds : ds ≠ []) (hdig : ∀ c ∈ ds, isDigitCh c = true)
    (hunit : isUnitChar letter = false) (hsp : isJsSpace letter = false)
    (_htext : text ≠ []) (hdot : ∀ c ∈ text, dotMatches c = true) :
    (parseIn (String.mk ('i' :: 'n' :: ' ' :: (ds ++ ' ' :: letter :: ' ' :: text))) now).map
        Parsed.dueAt
      = some (now + (digitsVal ds : Int) * 60000) := by
  unfold parseIn
  rw [show (String.mk ('i' :: 'n' :: ' ' :: (ds ++ ' ' :: letter :: ' ' :: text))).data
      = 'i' :: 'n' :: ' ' :: (ds ++ ' ' :: letter :: ' ' :: text) from rfl]
  rw [matchIn_shape hds hdig hunit hsp hdot]
  simp only [Option.map_some']
  show some (now + ((digitsVal ds * unitMs (((none : Option Char)).getD 'm').toLower : Nat) : Int))
      = some (now + (digitsVal ds : Int) * 60000)
  rw [show unitMs (((none : Option Char)).getD 'm').toLower = 60000 from rfl]
  push_cast
  ring_nf

/-- C3, witness: the shape theorem applied to the concrete input
in 10 x hi at instant 0. -/
theorem claim_C3_witness :
    (parseIn (String.mk ('i' :: 'n' :: ' ' ::
        ((['1', '0'] : List Char) ++ ' ' :: 'x' :: ' ' :: (['h', 'i'] : List Char)))) 0).map
        Parsed.dueAt
      = some (0 + (digitsVal ['1', '0'] : Int) * 60000) :=
  claim_C3 0 ['1', '0'] 'x' ['h', 'i'] (by decide) (by decide) (by decide) (by decide)
    (by decide) (by decide)

/-- The backtracking tail capture is a nonempty suffix of its input. -/
theorem bestTail_suffix {l : List Char} :
    ∀ {n : Nat} {t : List Char}, bestTail l n = some t → t ≠ [] ∧ t <:+ l := by
  intro n
  induction n with
  | zero =>
    intro t h
    exact absurd h (by simp [bestTail])
  | succ n ih =>
    intro t h
    simp only [bestTail] at h
    split at h
    next hc =>
      injection h with h
      subst h
      refine ⟨?_, List.drop_suffix (n + 1) l⟩
      simp only [Bool.and_eq_true, Bool.not_eq_true'] at hc
      intro hnil
      rw [hnil] at hc
      simp at hc
    next => exact ih h

/-- The keyword stripper returns a suffix of its input. -/
theorem stripKeyword_suffix :
    ∀ (ks l r : List Char), stripKeyword ks l = some r → r <:+ l := by
  intro ks
  induction ks with
  | nil =>
    intro l r h
    injection h with h
    subst h
    exact List.suffix_refl _
  | cons k ks ih =>
    intro l r h
    cases l with
    | nil => exact Option.noConfusion h
    | cons c l2 =>
      simp only [stripKeyword] at h
      split at h
      next => exact (ih l2 r h).trans (List.suffix_cons c l2)
      next => exact Option.noConfusion h

/-- The relative tail matcher returns a nonempty suffix capture. -/
theorem matchTail_suffix {s3 : List Char} {u : Option Char} {t : List Char}
    (h : matchTail s3 = some (u, t)) : t ≠ [] ∧ t <:+ s3 := by
  unfold matchTail at h
  dsimp only at h
  rcases Option.or_eq_some.mp h with hX | ⟨hXnone, hF⟩
  · rcases Option.bind_eq_some.mp hX with ⟨c, hc, hfc⟩
    split at hfc
    · rcases Option.map_eq_some'.mp hfc with ⟨txt, hbt, heq⟩
      rw [Prod.mk.injEq] at heq
      obtain ⟨h1, h2⟩ := heq
      subst h2
      obtain ⟨hne, hsuf⟩ := bestTail_suffix hbt
      refine ⟨hne, hsuf.trans ?_⟩
      exact (List.tail_suffix _).trans (List.drop_suffix _ s3)
    · exact Option.noConfusion hfc
  · rcases Option.map_eq_some'.mp hF with ⟨txt, hbt, heq⟩
    rw [Prod.mk.injEq] at heq
    obtain ⟨h1, h2⟩ := heq
    subst h2
    exact bestTail_suffix hbt

/-- The fixed-count digit matcher returns a suffix as its rest. -/
theorem takeDigits_suffix :
    ∀ (n : Nat) (l ds r : List Char), takeDigits n l = some (ds, r) → r <:+ l := by
  intro n
  induction n with
  | zero =>
    intro l ds r h
    injection h with h
    rw [Prod.mk.injEq] at h
    obtain ⟨h1, h2⟩ := h
    subst h2
    exact List.suffix_refl _
  | succ n ih =>
    intro l ds r h
    cases l with
    | nil => exact Option.noConfusion h
    | cons c l2 =>
      simp only [takeDigits] at h
      split at h
      · rcases Option.map_eq_some'.mp h with ⟨p, hp, heq⟩
        rw [Prod.mk.injEq] at heq
        obtain ⟨h1, h2⟩ := heq
        subst h2
        exact (ih l2 p.1 p.2 hp).trans (List.suffix_cons c l2)
      · exact Option.noConfusion h

/-- The hour matcher returns a suffix as its rest. -/
theorem matchHourColon_suffix {l hh r : List Char}
    (h : matchHourColon l = some (hh, r)) : r <:+ l := by
  unfold matchHourColon at h
  split at h
  next hh0 rest h2 =>
    injection h with h
    rw [Prod.mk.injEq] at h
    obtain ⟨h1, hr⟩ := h
    subst hr
    exact (List.suffix_cons ':' rest).trans (takeDigits_suffix 2 l hh0 (':' :: rest) h2)
  next =>
    split at h
    next hh0 rest h2 =>
      injection h with h
      rw [Prod.mk.injEq] at h
      obtain ⟨h1, hr⟩ := h
      subst hr
      exact (List.suffix_cons ':' rest).trans (takeDigits_suffix 1 l hh0 (':' :: rest) h2)
    next => exact Option.noConfusion h

/-- The date matcher returns a suffix as its rest. -/
theorem matchDate_suffix {l y mo d r : List Char}
    (h : matchDate l = some (y, mo, d, r)) : r <:+ l := by
  unfold matchDate at h
  split at h
  next y0 r1 h4 =>
    split at h
    next mo0 r2 h2 =>
      split at h
      next d0 rest h3 =>
        injection h with h
        rw [Prod.mk.injEq] at h
        obtain ⟨hy, h⟩ := h
        rw [Prod.mk.injEq] at h
        obtain ⟨hmo, h⟩ := h
        rw [Prod.mk.injEq] at h
        obtain ⟨hd, hr⟩ := h
        subst hr
        have s1 : r1 <:+ l :=
          (List.suffix_cons '-' r1).trans (takeDigits_suffix 4 l y0 ('-' :: r1) h4)
        have s2 : r2 <:+ r1 :=
          (List.suffix_cons '-' r2).trans (takeDigits_suffix 2 r1 mo0 ('-' :: r2) h2)
        exact ((takeDigits_suffix 2 r2 d0 _ h3).trans s2).trans s1
      next => exact Option.noConfusion h
    next => exact Option.noConfusion h
  next => exact Option.noConfusion h

/-- The common whitespace-text tail matcher returns a nonempty suffix. -/
theorem matchWsText_suffix {l t : List Char} (h : matchWsText l = some t) :
    t ≠ [] ∧ t <:+ l := by
  unfold matchWsText at h
  exact bestTail_suffix h

/-- The relative-grammar matcher captures a nonempty suffix as its text. -/
theorem matchIn_text {cs ds : List Char} {u : Option Char} {t : List Char}
    (h : matchIn cs = some (ds, u, t)) : t ≠ [] ∧ t <:+ cs := by
  unfold matchIn at h
  rcases Option.bind_eq_some.mp h with ⟨rest, hstrip, hrest⟩
  have hrs : rest <:+ cs := stripKeyword_suffix _ cs rest hstrip
  dsimp only at hrest
  split at hrest
  next => exact Option.noConfusion hrest
  next =>
    split at hrest
    next => exact Option.noConfusion hrest
    next =>
      rcases Option.map_eq_some'.mp hrest with ⟨p, hmt, heq⟩
      rw [Prod.mk.injEq] at heq
      obtain ⟨h1, heq⟩ := heq
      rw [Prod.mk.injEq] at heq
      obtain ⟨h2, h3⟩ := heq
      subst h3
      obtain ⟨hne, hsuf⟩ := matchTail_suffix (u := p.1) (by rw [← hmt])
      refine ⟨hne, ?_⟩
      exact ((hsuf.trans (List.drop_suffix _ _)).trans (List.drop_suffix _ rest)).trans hrs

/-- The absolute-grammar matcher captures a nonempty suffix as its text. -/
theorem matchAt_text {cs y mo d hh mm t : List Char}
    (h : matchAt cs = some (y, mo, d, hh, mm, t)) : t ≠ [] ∧ t <:+ cs := by
  unfold matchAt at h
  split at h
  next => exact Option.noConfusion h
  next rest hstrip =>
    have hrs : rest <:+ cs := stripKeyword_suffix _ cs rest hstrip
    dsimp only at h
    split at h
    next => exact Option.noConfusion h
    next =>
      split at h
      next y0 mo0 d0 r1 hdate =>
        have hr1 : r1 <:+ rest :=
          (matchDate_suffix hdate).trans (List.drop_suffix _ rest)
        split at h
        next => exact Option.noConfusion h
        next =>
          split at h
          next hh0 r2 hhour =>
            have hr2 : r2 <:+ r1 :=
              (matchHourColon_suffix hhour).trans (List.drop_suffix _ r1)
            split at h
            next mm0 r3 hmm =>
              have hr3 : r3 <:+ r2 := takeDigits_suffix 2 r2 mm0 r3 hmm
              rcases Option.map_eq_some'.mp h with ⟨txt, hws, heq⟩
              rw [Prod.mk.injEq] at heq
              obtain ⟨e1, heq⟩ := heq
              rw [Prod.mk.injEq] at heq
              obtain ⟨e2, heq⟩ := heq
              rw [Prod.mk.injEq] at heq
              obtain ⟨e3, heq⟩ := heq
              rw [Prod.mk.injEq] at heq
              obtain ⟨e4, heq⟩ := heq
              rw [Prod.mk.injEq] at heq
              obtain ⟨e5, e6⟩ := heq
              subst e6
              obtain ⟨hne, hsuf⟩ := matchWsText_suffix hws
              exact ⟨hne, (((hsuf.trans hr3).trans hr2).trans hr1).trans hrs⟩
            next => exact Option.noConfusion h
          next => exact Option.noConfusion h
      next => exact Option.noConfusion h

/-- The next-day-grammar matcher captures a nonempty suffix as its text. -/
theorem matchTomorrow_text {cs hh mm t : List Char}
    (h : matchTomorrow cs = some (hh, mm, t)) : t ≠ [] ∧ t <:+ cs := by
  unfold matchTomorrow at h
  split at h
  next => exact Option.noConfusion h
  next rest hstrip =>
    have hrs : rest <:+ cs := stripKeyword_suffix _ cs rest hstrip
    dsimp only at h
    split at h
    next => exact Option.noConfusion h
    next =>
      split at h
      next hh0 r2 hhour =>
        have hr2 : r2 <:+ rest :=
          (matchHourColon_suffix hhour).trans (List.drop_suffix _ rest)
        split at h
        next mm0 r3 hmm =>
          have hr3 : r3 <:+ r2 := takeDigits_suffix 2 r2 mm0 r3 hmm
          rcases Option.map_eq_some'.mp h with ⟨txt, hws, heq⟩
          rw [Prod.mk.injEq] at heq
          obtain ⟨e1, heq⟩ := heq
          rw [Prod.mk.injEq] at heq
          obtain ⟨e2, e3⟩ := heq
          subst e3
          obtain ⟨hne, hsuf⟩ := matchWsText_suffix hws
          exact ⟨hne, ((hsuf.trans hr3).trans hr2).trans hrs⟩
        next => exact Option.noConfusion h
      next => exact Option.noConfusion h

/-- A nonempty suffix has the same last element as the whole list. -/
theorem suffix_getLast? {t l : List Char} (h : t <:+ l) (hne : t ≠ []) :
    l.getLast? = t.getLast? := by
  obtain ⟨s, rfl⟩ := h
  exact List.getLast?_append_of_ne_nil s hne

/-- The head surviving dropWhile fails the predicate. -/
theorem head?_dropWhile_false {p : Char → Bool} {l : List Char} {c : Char}
    (h : (l.dropWhile p).head? = some c) : p c = false := by
  have hx := List.head?_dropWhile_not p l
  rw [h] at hx
  exact hx

/-- The last character of a trimmed string is never whitespace. -/
theorem trimList_getLast {l : List Char} {c : Char}
    (h : (trimList l).getLast? = some c) : isJsSpace c = false := by
  unfold trimList at h
  rw [List.getLast?_reverse] at h
  exact head?_dropWhile_false h

/-- Trimming a list whose last character is not whitespace cannot empty it. -/
theorem trimList_ne_nil {l : List Char} {c : Char}
    (hl : l.getLast? = some c) (hc : isJsSpace c = false) : trimList l ≠ [] := by
  unfold trimList
  have hmem : c ∈ l := List.mem_of_getLast?_eq_some hl
  have hdne : l.dropWhile isJsSpace ≠ [] := by
    intro hnil
    have hall := List.dropWhile_eq_nil_iff.mp hnil
    have hcl := hall c hmem
    simp [hc] at hcl
  have hdlast : (l.dropWhile isJsSpace).getLast? = some c := by
    rw [suffix_getLast? (List.dropWhile_suffix isJsSpace) hdne] at hl
    exact hl
  have hrev : (l.dropWhile isJsSpace).reverse.head? = some c := by
    rw [List.head?_reverse]
    exact hdlast
  obtain ⟨rest, hrest⟩ : ∃ rest, (l.dropWhile isJsSpace).reverse = c :: rest := by
    cases hx : (l.dropWhile isJsSpace).reverse with
    | nil => rw [hx] at hrev; exact Option.noConfusion hrev
    | cons a b =>
      rw [hx] at hrev
      injection hrev with hrev
      exact ⟨b, by rw [hrev]⟩
  rw [hrest, List.dropWhile_cons, hc]
  simp

/-- A string built from a nonempty character list is not the empty string. -/
theorem mk_ne_empty {l : List Char} (h : l ≠ []) : String.mk l ≠ "" := by
  intro he
  exact h (congrArg String.data he)

/-- When the input string ends in a non-whitespace character, every parser
match carries nonempty text: the captured raw text is a nonempty suffix
of the input, so it ends in that same character, and trimming it cannot
empty it. -/
theorem parse_text_ne {env : DateEnv} {input : String} {now : Int} {p : Parsed} {c : Char}
    (hlast : input.data.getLast? = some c) (hc : isJsSpace c = false)
    (hp : parseWhenAndText env input now = some p) : p.text ≠ "" := by
  unfold parseWhenAndText at hp
  split at hp
  next p1 hin =>
    injection hp with hp
    subst hp
    unfold parseIn at hin
    rcases Option.map_eq_some'.mp hin with ⟨m, hm, hfm⟩
    obtain ⟨ds, u, txt⟩ := m
    obtain ⟨hne, hsuf⟩ := matchIn_text hm
    have htxt : p1.text = String.mk (trimList txt) := by rw [← hfm]
    rw [htxt]
    apply mk_ne_empty
    have hlt : txt.getLast? = some c := by
      rw [← suffix_getLast? hsuf hne]
      exact hlast
    exact trimList_ne_nil hlt hc
  next hin =>
    split at hp
    next p1 hat =>
      injection hp with hp
      subst hp
      unfold parseAt at hat
      rcases Option.map_eq_some'.mp hat with ⟨m, hm, hfm⟩
      obtain ⟨y, mo, d, hh, mm, txt⟩ := m
      obtain ⟨hne, hsuf⟩ := matchAt_text hm
      have htxt : p1.text = String.mk (trimList txt) := by rw [← hfm]
      rw [htxt]
      apply mk_ne_empty
      have hlt : txt.getLast? = some c := by
        rw [← suffix_getLast? hsuf hne]
        exact hlast
      exact trimList_ne_nil hlt hc
    next hat =>
      unfold parseTomorrow at hp
      rcases Option.map_eq_some'.mp hp with ⟨m, hm, hfm⟩
      obtain ⟨hh, mm, txt⟩ := m
      obtain ⟨hne, hsuf⟩ := matchTomorrow_text hm
      have htxt : p.text = String.mk (trimList txt) := by rw [← hfm]
      rw [htxt]
      apply mk_ne_empty
      have hlt : txt.getLast? = some c := by
        rw [← suffix_getLast? hsuf hne]
        exact hlast
      exact trimList_ne_nil hlt hc

/-- C7, amended: the parser itself does return a match with empty text on a
raw input whose time token matches and whose trailing text is whitespace
only (second conjunct, at the example in 5m followed by two spaces); but
the remind handler trims its argument before parsing, and every grammar
anchors its text capture at the end of the input, so a trimmed argument
can only yield matches with nonempty trimmed text: the handler's
EmptyText rejection is unreachable — no create call ever returns
EmptyText (first conjunct); such raw inputs instead produce ParseError. -/
theorem claim_C7 (env : DateEnv) (db : Store) (chatId : Int) (userId : Option Int)
    (rawArg : String) (now : Int) :
    isEmptyTextResult (remindCmd env db chatId userId rawArg now).2 = false
    ∧ (parseIn "in 5m  " now).map Parsed.text = some "" := by
  refine ⟨?_, rfl⟩
  have key : ∀ p : Parsed, parseWhenAndText env (jsTrim rawArg) now = some p →
      ¬jsTrim rawArg = "" → ¬p.text = "" := by
    intro p hp hne
    have hde : (jsTrim rawArg).data = trimList rawArg.data := rfl
    have hdne : (jsTrim rawArg).data ≠ [] := by
      intro hh
      apply hne
      have hnil : trimList rawArg.data = [] := by rw [← hde]; exact hh
      show jsTrim rawArg = ""
      unfold jsTrim
      rw [hnil]
    obtain ⟨c, hc⟩ : ∃ c, (jsTrim rawArg).data.getLast? = some c := by
      cases hx : (jsTrim rawArg).data.getLast? with
      | none => exact absurd (List.getLast?_eq_none_iff.mp hx) hdne
      | some c => exact ⟨c, rfl⟩
    have hcs : isJsSpace c = false := by
      apply trimList_getLast (l := rawArg.data)
      rw [← hde]
      exact hc
    exact parse_text_ne hc hcs hp
  simp only [remindCmd]
  split
  next => rfl
  next ha =>
    split
    next => rfl
    next p hp =>
      rw [if_neg (key p hp ha)]
      split
      next => rfl
      next => rfl

/-- C7, counterexample: at the very input the claim describes (time token
matches, trailing text is only whitespace), the parser does return an
empty-text match, but the create path returns ParseError, not EmptyText,
because the handler trims the argument before parsing and the trimmed
argument no longer matches any grammar. -/
theorem claim_C7_counterexample :
    (parseIn "in 5m  " 0).map Parsed.text = some ""
    ∧ (remindCmd trivEnv emptyStore 7 none "in 5m  " 0).2 = CreateResult.parseError :=
  ⟨rfl, rfl⟩

/-- C4, counterexample: well-formed JSON content that is not a store record
(the JSON number 3) is returned as-is by load, not replaced by the empty
default object, so the claim that semantically invalid content yields the
default is false at this input. -/
theorem claim_C4_counterexample :
    readDB (Medium.json (Json.num 3)) = Json.num 3
    ∧ (readDB (Medium.json (Json.num 3))).isObj = false
    ∧ defaultStoreJson.isObj = true :=
  ⟨rfl, rfl, rfl⟩

/-- C4, amended: load never raises (it is total) and returns the empty
default exactly when the backing medium is missing, unreadable, or not
well-formed JSON; any successfully parsed JSON value, even one that is
not a store record, is returned unvalidated. -/
theorem claim_C4 :
    readDB Medium.missing = defaultStoreJson
    ∧ readDB Medium.unreadable = defaultStoreJson
    ∧ readDB Medium.invalidJson = defaultStoreJson
    ∧ ∀ v, readDB (Medium.json v) = v :=
  ⟨rfl, rfl, rfl, fun _ => rfl⟩

/-- C8: the relative grammar computes dueAt as now plus 600000 ms for the
input in 10m Buy milk, capturing text Buy milk and descriptor in 10m, and
defaults the omitted unit to minutes for in 2 Call mom, giving now plus
120000 ms. -/
theorem claim_C8 (env : DateEnv) (now : Int) :
    parseWhenAndText env "in 10m Buy milk" now
      = some { dueAt := now + 600000, text := "Buy milk", how := "in 10m" }
    ∧ (parseWhenAndText env "in 2 Call mom" now).map Parsed.dueAt = some (now + 120000) :=
  ⟨rfl, rfl⟩

/-- C10: the relative grammar accepts amount zero, parsing in 0s x to a
match with dueAt equal to now, and the remind handler then rejects it as
past-due because the due instant is not strictly in the future. -/
theorem claim_C10 (env : DateEnv) (db : Store) (chatId : Int) (userId : Option Int) (now : Int) :
    (parseIn "in 0s x" now).map Parsed.dueAt = some now
    ∧ remindCmd env db chatId userId "in 0s x" now = (db, CreateResult.pastDue) := by
  have h0 : (parseIn "in 0s x" now).map Parsed.dueAt = some (now + 0) := rfl
  constructor
  · rw [h0]; norm_num
  · have hp : parseWhenAndText env "in 0s x" now
        = some { dueAt := now + 0, text := "x", how := "in 0s" } := rfl
    simp only [remindCmd]
    rw [show jsTrim "in 0s x" = "in 0s x" from rfl]
    rw [if_neg (by decide : ¬("in 0s x" : String) = "")]
    rw [hp]
    simp only []
    rw [if_neg (by decide : ¬("x" : String) = "")]
    rw [if_pos (by omega : now + 0 ≤ now)]

end ReminderBot
